import Mathlib

/-!
Shallow embedding of `src/mcp_implementation.py` (class `ModelControlProtocol`).

The SQLite database is modelled as two lists kept in rowid (insertion) order,
together with the AUTOINCREMENT counters.  `CURRENT_TIMESTAMP` is an input of
every insert (a `Nat`); the real clock is monotone non-decreasing, which enters
as a hypothesis of reachability.  SQL `ORDER BY` on a single key is modelled as
a stable sort over the scan order of the query plan (the plan scans
`model_interactions` in rowid order and looks each message up by primary key;
the temp B-tree sorter keeps equal keys in scan order), and `LIMIT 1` with
`fetchone` as `head?`.
-/

namespace MCP

/-- Row of the `messages` table:
`id INTEGER PRIMARY KEY AUTOINCREMENT, model_id, message_type, message_content,
timestamp DATETIME DEFAULT CURRENT_TIMESTAMP`. -/
structure Message where
  id : Nat
  model_id : String
  message_type : String
  message_content : String
  timestamp : Nat
deriving Repr, DecidableEq

/-- Row of the `model_interactions` table:
`interaction_id INTEGER PRIMARY KEY AUTOINCREMENT, model1_id, model2_id,
message_id REFERENCES messages(id), timestamp`. -/
structure Interaction where
  interaction_id : Nat
  model1_id : String
  model2_id : String
  message_id : Nat
  timestamp : Nat
deriving Repr, DecidableEq

/-- The database state: both tables in rowid order plus the AUTOINCREMENT
counters (SQLite's AUTOINCREMENT starts at 1). -/
structure Store where
  messages : List Message
  interactions : List Interaction
  nextMessageId : Nat
  nextInteractionId : Nat
deriving Repr, DecidableEq

/-- Freshly created empty tables. -/
def emptyStore : Store :=
  { messages := [], interactions := [], nextMessageId := 1, nextInteractionId := 1 }

/-- Database file state: `none` while the tables do not exist yet. -/
def DBFile : Type := Option Store

/-- Embeds `setup_database`: `CREATE TABLE IF NOT EXISTS` for both tables in one
call, a no-op when the tables already exist. -/
def setup_database : Option Store → Option Store
  | none => some emptyStore
  | some s => some s

/-- Error raised when the backing medium is unwritable at initialization. -/
inductive StorageInitError where
  | unwritable
deriving Repr, DecidableEq

/-- Embeds `setup_database` together with its failure mode: `sqlite3.connect` /
`CREATE TABLE` raise when the backing medium is unwritable, and the file is
untouched in that case. -/
def setup_database_io (writable : Bool) (d : Option Store) :
    Except StorageInitError (Option Store) :=
  if writable then Except.ok (setup_database d) else Except.error StorageInitError.unwritable

/-- Embeds `send_message(sender_model, receiver_model, message_content,
message_type)`: one INSERT into `messages`, `lastrowid` is the new message id,
then one INSERT into `model_interactions` referencing it; returns the message
id together with the updated store.  Both inserts happen inside one implicit
transaction committed by the single `conn.commit()` at the end. -/
def send_message (s : Store) (sender_model receiver_model message_content : String)
    (message_type : String) (now : Nat) : Nat × Store :=
  let message_id := s.nextMessageId
  ( message_id,
    { messages :=
        s.messages ++ [⟨message_id, sender_model, message_type, message_content, now⟩],
      interactions :=
        s.interactions ++
          [⟨s.nextInteractionId, sender_model, receiver_model, message_id, now⟩],
      nextMessageId := message_id + 1,
      nextInteractionId := s.nextInteractionId + 1 } )

/-- Error raised when an append fails on I/O. -/
inductive StorageWriteError where
  | ioFailure
deriving Repr, DecidableEq

/-- Embeds `send_message` together with its failure mode.  The two INSERTs run
inside sqlite's implicit transaction and the sole `conn.commit()` comes after
both, so an I/O failure raised before the commit rolls the transaction back
and leaves the database file unchanged: the pair (resulting store, outcome)
is `(s, error)` on failure. -/
def send_message_io (ioFail : Bool) (s : Store)
    (sender_model receiver_model message_content : String)
    (message_type : String) (now : Nat) : Store × Except StorageWriteError Nat :=
  if ioFail then
    (s, Except.error StorageWriteError.ioFailure)
  else
    let r := send_message s sender_model receiver_model message_content message_type now
    (r.2, Except.ok r.1)

/-- Python truthiness of the optional `message_id` argument of
`receive_message` (`if message_id:`): `None` and `0` are falsy. -/
def truthyId : Option Nat → Bool
  | none => false
  | some n => n != 0

/-- Result rows of the join `messages m JOIN model_interactions mi ON
m.id = mi.message_id`, in the scan order of the query plan: outer scan of
`model_interactions` in rowid order, inner lookup of `messages` by primary
key. -/
def joinRows (s : Store) : List (Message × Interaction) :=
  s.interactions.flatMap fun mi =>
    (s.messages.filter fun m => m.id == mi.message_id).map fun m => (m, mi)

/-- Comparison used for `ORDER BY m.timestamp DESC` on joined rows. -/
def tsDesc (a b : Message × Interaction) : Prop :=
  b.1.timestamp ≤ a.1.timestamp

instance : DecidableRel tsDesc := fun a b => Nat.decLe b.1.timestamp a.1.timestamp

/-- Comparison used for `ORDER BY m.timestamp ASC` on joined rows. -/
def tsAsc (a b : Message × Interaction) : Prop :=
  a.1.timestamp ≤ b.1.timestamp

instance : DecidableRel tsAsc := fun a b => Nat.decLe a.1.timestamp b.1.timestamp

/-- Embeds `receive_message(model_id, message_id=None)`.  With a truthy
`message_id` it runs
`SELECT m.message_content, m.model_id ... WHERE mi.message_id = ? AND
mi.model2_id = ?` and `fetchone` (first row in scan order); otherwise it runs
`... WHERE mi.model2_id = ? ORDER BY m.timestamp DESC LIMIT 1`.  Returns the
selected `message_content`, or `none` when no row matches. -/
def receive_message (s : Store) (model_id : String) (message_id : Option Nat) :
    Option String :=
  let rows :=
    if truthyId message_id then
      (joinRows s).filter fun p =>
        p.2.message_id == message_id.getD 0 && p.2.model2_id == model_id
    else
      List.insertionSort tsDesc
        ((joinRows s).filter fun p => p.2.model2_id == model_id)
  rows.head?.map fun p => p.1.message_content

/-- Single-quote character, used by the f-string of `execute_turn`. -/
def sq : String := String.singleton (Char.ofNat 39)

/-- Response text `f"RESPONSE from {sender}: I received {received!q} and my
response is..."` built by `execute_turn` when a prior message exists. -/
def relayedResponse (sender received : String) : String :=
  "RESPONSE from " ++ sender ++ ": I received " ++ sq ++ received ++ sq ++
    " and my response is..."

/-- Response text built by `execute_turn` when no prior message exists. -/
def noPriorResponse (sender : String) : String :=
  "RESPONSE from " ++ sender ++ ": No prior message received, starting conversation..."

/-- Python truthiness of the optional `initial_message` (`if i == 0 and
initial_message:`): `None` and the empty string are falsy. -/
def truthySeed : Option String → Bool
  | none => false
  | some str => str != ""

/-- Body of the loop `for i in range(len(models))` of `execute_turn`, acting on
the pair (responses so far, store).  `ts i` is the `CURRENT_TIMESTAMP` of the
step's inserts. -/
def turn_step (models : List String) (initial_message : Option String) (ts : Nat → Nat)
    (st : List String × Store) (i : Nat) : List String × Store :=
  let s := st.2
  let sender_model := models.getD i ""
  let receiver_model := models.getD ((i + 1) % models.length) ""
  let response :=
    if i == 0 && truthySeed initial_message then
      "INITIAL: " ++ initial_message.getD ""
    else
      match receive_message s sender_model none with
      | some received => relayedResponse sender_model received
      | none => noPriorResponse sender_model
  let s2 := (send_message s sender_model receiver_model response "text" (ts i)).2
  (st.1 ++ [response], s2)

/-- Embeds `execute_turn(initial_message=None)` as a function of the roster
(`self.models`), the store, the optional seed and the clock: one pass of the
loop body per roster index, returning the responses in order together with the
final store. -/
def execute_turn (models : List String) (s : Store) (initial_message : Option String)
    (ts : Nat → Nat) : List String × Store :=
  (List.range models.length).foldl (turn_step models initial_message ts) ([], s)

/-- Row shape returned by `get_all_messages`:
`(m.id, m.model_id, mi.model2_id, m.message_content, m.timestamp)`. -/
structure HistoryRow where
  id : Nat
  sender : String
  receiver : String
  content : String
  timestamp : Nat
deriving Repr, DecidableEq

/-- Embeds `get_all_messages`: the join of the two tables ordered by
`m.timestamp ASC` (stable over scan order), projected to
`(m.id, m.model_id, mi.model2_id, m.message_content, m.timestamp)`. -/
def get_all_messages (s : Store) : List HistoryRow :=
  (List.insertionSort tsAsc (joinRows s)).map fun p =>
    ⟨p.1.id, p.1.model_id, p.2.model2_id, p.1.message_content, p.1.timestamp⟩

/-- Embeds the database clear of the CLI (`os.remove` of the file followed by
`setup_database`). -/
def reset : Option Store → Option Store := fun _ => setup_database none

/-- Specification-side selector for the amended C2: the first row, in scan
order, whose message timestamp is maximal.  Ties on the timestamp are won by
the earliest (smallest-id) row, which is what the code's
`ORDER BY m.timestamp DESC LIMIT 1` returns. -/
def firstMaxTs : List (Message × Interaction) → Option (Message × Interaction)
  | [] => none
  | x :: xs =>
    match firstMaxTs xs with
    | none => some x
    | some y => if x.1.timestamp < y.1.timestamp then some y else some x

/-- Structural well-formedness of a store state, as maintained by the public
operations: ids are positive, below the AUTOINCREMENT counter and strictly
increasing in insertion order; the k-th interaction references the k-th
message (each `send_message` appends the pair together); timestamps are
non-decreasing in insertion order (the real clock is monotone). -/
structure Inv (s : Store) : Prop where
  mlt : ∀ m ∈ s.messages, m.id < s.nextMessageId
  mpos : ∀ m ∈ s.messages, 1 ≤ m.id
  ilt : ∀ mi ∈ s.interactions, mi.message_id < s.nextMessageId
  pairing : s.interactions.map Interaction.message_id = s.messages.map Message.id
  mono_id : s.messages.Pairwise fun a b => a.id < b.id
  mono_ts : s.messages.Pairwise fun a b => a.timestamp ≤ b.timestamp
  pos : 1 ≤ s.nextMessageId

/-- Store states reachable through the state-changing public operations:
a fresh store (`setup_database` on an absent file, also the state after
`reset`), and any `send_message` whose `CURRENT_TIMESTAMP` is at least every
timestamp already in the store (the wall clock is monotone non-decreasing).
`execute_turn` only writes through `send_message`, so its states are covered
as well. -/
inductive Reachable : Store → Prop
  | init : Reachable emptyStore
  | step (s : Store) (snd rcv c k : String) (now : Nat) : Reachable s →
      (∀ m ∈ s.messages, m.timestamp ≤ now) →
      Reachable (send_message s snd rcv c k now).2

/-- Store holding two messages addressed to "R" whose timestamps tie (the
`DATETIME DEFAULT CURRENT_TIMESTAMP` column has one-second resolution while
`execute_turn` sleeps only half a second between appends, so ties occur). -/
def tieStore : Store :=
  (send_message (send_message emptyStore "A" "R" "one" "text" 5).2 "B" "R" "two" "text" 5).2

/-- First turn of the seeded scenario: roster `["A","B","C"]`, fresh store,
seed "hello", clock ticking one unit per step. -/
def abcTurn1 : List String × Store :=
  execute_turn ["A", "B", "C"] emptyStore (some "hello") (fun i => i)

/-- Unseeded follow-up turn immediately after `abcTurn1`, the clock continuing
where the first turn stopped. -/
def abcTurn2 : List String × Store :=
  execute_turn ["A", "B", "C"] abcTurn1.2 none (fun i => i + 3)

/-- Helper: the fold underlying `execute_turn` appends one response per
index. -/
theorem foldl_turn_step_length (models : List String) (seed : Option String)
    (ts : Nat → Nat) :
    ∀ (l : List Nat) (init : List String × Store),
      ((l.foldl (turn_step models seed ts) init).1).length = init.1.length + l.length
  | [], _ => by simp
  | a :: l, init => by
    rw [List.foldl_cons, foldl_turn_step_length models seed ts l]
    simp [turn_step]
    omega

/-- Helper: the fold underlying `execute_turn` appends one message per index,
attributed to the roster entry at that index. -/
theorem foldl_turn_step_senders (models : List String) (seed : Option String)
    (ts : Nat → Nat) :
    ∀ (n : Nat) (acc : List String) (s : Store),
      (((List.range n).foldl (turn_step models seed ts) (acc, s)).2).messages.map
          Message.model_id
        = s.messages.map Message.model_id
            ++ (List.range n).map fun i => models.getD i "" := by
  intro n
  induction n with
  | zero => intro acc s; simp
  | succ n ih =>
    intro acc s
    rw [List.range_succ, List.foldl_append, List.foldl_cons, List.foldl_nil]
    have hstep : ∀ (st : List String × Store) (i : Nat),
        ((turn_step models seed ts st i).2).messages.map Message.model_id
          = st.2.messages.map Message.model_id ++ [models.getD i ""] := by
      intro st i
      simp [turn_step, send_message]
    rw [hstep, ih acc s, List.map_append, List.append_assoc]
    rfl

/-- Helper: reading a list back positionally over its index range is the
identity. -/
theorem range_map_getD (l : List String) :
    ((List.range l.length).map fun i => l.getD i "") = l := by
  apply List.ext_getElem
  · simp
  · intro n h1 h2
    rw [List.getElem_map]
    rw [List.getElem_range]
    exact List.getD_eq_getElem l "" h2

/-- C1: for every roster of length N and any seed (present or absent),
`execute_turn` returns exactly N response strings, one per roster position in
roster order (the messages written are attributed to the roster entries in
roster order); on the empty roster it returns the empty sequence and leaves
the store untouched (zero writes). -/
theorem execute_turn_response_count :
    (∀ (models : List String) (s : Store) (seed : Option String) (ts : Nat → Nat),
        (execute_turn models s seed ts).1.length = models.length) ∧
    (∀ (models : List String) (s : Store) (seed : Option String) (ts : Nat → Nat),
        (execute_turn models s seed ts).2.messages.map Message.model_id
          = s.messages.map Message.model_id ++ models) ∧
    (∀ (s : Store) (seed : Option String) (ts : Nat → Nat),
        execute_turn [] s seed ts = ([], s)) := by
  refine ⟨?_, ?_, ?_⟩
  · intro models s seed ts
    unfold execute_turn
    rw [foldl_turn_step_length]
    simp
  · intro models s seed ts
    unfold execute_turn
    rw [foldl_turn_step_senders, range_map_getD]
  · intro s seed ts
    rfl

/-- C4: `send_message` inserts exactly one Message and then exactly one
HandOff referencing it as one atomic unit, returns the new Message id, and on
I/O failure the implicit transaction is rolled back so no partial state is
observable (`send_message_io` returns the store unchanged with a
`StorageWriteError`). -/
theorem send_message_atomic_append :
    ∀ (s : Store) (snd rcv c k : String) (now : Nat),
      (send_message s snd rcv c k now).1 = s.nextMessageId ∧
      (send_message s snd rcv c k now).2.messages
        = s.messages ++ [⟨s.nextMessageId, snd, k, c, now⟩] ∧
      (send_message s snd rcv c k now).2.interactions
        = s.interactions ++ [⟨s.nextInteractionId, snd, rcv, s.nextMessageId, now⟩] ∧
      send_message_io false s snd rcv c k now
        = ((send_message s snd rcv c k now).2, Except.ok s.nextMessageId) ∧
      send_message_io true s snd rcv c k now
        = (s, Except.error StorageWriteError.ioFailure) := by
  intro s snd rcv c k now
  exact ⟨rfl, rfl, rfl, rfl, rfl⟩

/-- C9: `setup_database` is idempotent — a second call on the same storage
location is the identity, never loses existing Messages or HandOffs, and never
errors, whether the store is empty or already populated. -/
theorem setup_database_idempotent :
    (∀ d : Option Store, setup_database (setup_database d) = setup_database d) ∧
    (∀ s : Store, setup_database (some s) = some s) ∧
    (∀ d : Option Store,
        setup_database_io true (setup_database d) = Except.ok (setup_database d)) ∧
    setup_database none = some emptyStore := by
  refine ⟨?_, fun _ => rfl, fun d => by cases d <;> rfl, rfl⟩
  intro d
  cases d <;> rfl

/-- C10: `execute_turn` with an empty-string seed behaves exactly as if no
seed were provided (seed presence is tested by Python truthiness), so the
first roster agent falls back to the latest-message lookup, which on an empty
store yields the no-prior-message placeholder. -/
theorem empty_seed_is_unseeded :
    (∀ (models : List String) (s : Store) (ts : Nat → Nat),
        execute_turn models s (some "") ts = execute_turn models s none ts) ∧
    (execute_turn ["A", "B", "C"] emptyStore (some "") (fun i => i)).1.headD ""
      = noPriorResponse "A" := by
  constructor
  · intro models s ts
    rfl
  · rfl

/-- C5: the seeded turn on roster `["A","B","C"]` with seed "hello" on a
fresh store produces the seeded wrapper first, then the relayed wrappers of
A's message to B and of B's message to C, and leaves exactly 3 Messages and 3
HandOffs with the directed pairs (A,B), (B,C), (C,A). -/
theorem seeded_turn_scenario :
    abcTurn1.1 = ["INITIAL: hello",
      relayedResponse "B" "INITIAL: hello",
      relayedResponse "C" (relayedResponse "B" "INITIAL: hello")] ∧
    abcTurn1.2.messages.length = 3 ∧
    abcTurn1.2.interactions.length = 3 ∧
    abcTurn1.2.interactions.map (fun mi => (mi.model1_id, mi.model2_id))
      = [("A", "B"), ("B", "C"), ("C", "A")] ∧
    abcTurn1.2.messages.map Message.message_content = abcTurn1.1 := by
  exact ⟨rfl, rfl, rfl, rfl, rfl⟩

/-- C6: the unseeded turn immediately after the seeded `["A","B","C"]` turn
restarts at roster position 0: the most recent message addressed to "A" is the
(C,A) message of turn 1, and response 0 of turn 2 is the relayed wrapper of
that message, not a seeded INITIAL response. -/
theorem unseeded_followup_scenario :
    receive_message abcTurn1.2 "A" none
      = some (relayedResponse "C" (relayedResponse "B" "INITIAL: hello")) ∧
    abcTurn2.1.headD ""
      = relayedResponse "A" (relayedResponse "C" (relayedResponse "B" "INITIAL: hello")) ∧
    abcTurn1.2.interactions.map (fun mi => (mi.model1_id, mi.model2_id, mi.message_id))
      = [("A", "B", 1), ("B", "C", 2), ("C", "A", 3)] := by
  exact ⟨rfl, rfl, rfl⟩

/-- C2, counterexample: two messages addressed to "R" appended at the same
timestamp (ids 1 and 2); the claim demands the greatest id, content "two", but
`receive_message` (the latest-addressed-to query) returns content "one". -/
theorem latest_tie_returns_first_not_greatest :
    (tieStore.interactions.map fun mi => (mi.message_id, mi.model2_id, mi.timestamp))
      = [(1, "R", 5), (2, "R", 5)] ∧
    (tieStore.messages.map fun m => (m.id, m.message_content, m.timestamp))
      = [(1, "one", 5), (2, "two", 5)] ∧
    receive_message tieStore "R" none = some "one" ∧
    receive_message tieStore "R" none ≠ some "two" := by
  refine ⟨rfl, rfl, rfl, ?_⟩
  decide

/-- Helper: the head of the stable descending-by-timestamp sort is the first
row in scan order whose timestamp is maximal. -/
theorem insertionSort_tsDesc_head :
    ∀ l : List (Message × Interaction),
      (List.insertionSort tsDesc l).head? = firstMaxTs l
  | [] => rfl
  | x :: l => by
    rw [List.insertionSort]
    cases h : List.insertionSort tsDesc l with
    | nil =>
      have hf : firstMaxTs l = none := by
        rw [← insertionSort_tsDesc_head l, h]; rfl
      simp [List.orderedInsert, firstMaxTs, hf]
    | cons y ys =>
      have hf : firstMaxTs l = some y := by
        rw [← insertionSort_tsDesc_head l, h]; rfl
      rw [List.orderedInsert]
      by_cases hxy : tsDesc x y
      · rw [if_pos hxy]
        have hyx : y.1.timestamp ≤ x.1.timestamp := hxy
        have hnlt : ¬ x.1.timestamp < y.1.timestamp := Nat.not_lt.mpr hyx
        simp [firstMaxTs, hf, hnlt]
      · rw [if_neg hxy]
        have hlt : x.1.timestamp < y.1.timestamp := Nat.not_le.mp hxy
        simp [firstMaxTs, hf, hlt]

/-- Helper: the selected row is an element of the list. -/
theorem firstMaxTs_mem :
    ∀ {l : List (Message × Interaction)} {x : Message × Interaction},
      firstMaxTs l = some x → x ∈ l := by
  intro l
  induction l with
  | nil => intro x h; simp [firstMaxTs] at h
  | cons a t ih =>
    intro x h
    cases hft : firstMaxTs t with
    | none =>
      simp only [firstMaxTs, hft] at h
      cases h
      exact List.mem_cons_self a t
    | some y =>
      simp only [firstMaxTs, hft] at h
      by_cases hlt : a.1.timestamp < y.1.timestamp
      · rw [if_pos hlt] at h
        cases h
        exact List.mem_cons_of_mem a (ih hft)
      · rw [if_neg hlt] at h
        cases h
        exact List.mem_cons_self a t

/-- Helper: the list headed by any element has a selected row. -/
theorem firstMaxTs_cons_ne_none (a : Message × Interaction)
    (t : List (Message × Interaction)) : firstMaxTs (a :: t) ≠ none := by
  simp only [firstMaxTs]
  cases firstMaxTs t with
  | none => simp
  | some y =>
    by_cases hlt : a.1.timestamp < y.1.timestamp
    · simp [hlt]
    · simp [hlt]

/-- Helper: the selected row has a maximal timestamp. -/
theorem firstMaxTs_isMax :
    ∀ {l : List (Message × Interaction)} {x : Message × Interaction},
      firstMaxTs l = some x → ∀ y ∈ l, y.1.timestamp ≤ x.1.timestamp := by
  intro l
  induction l with
  | nil => intro x _ y hy; simp at hy
  | cons a t ih =>
    intro x h y hy
    cases hft : firstMaxTs t with
    | none =>
      cases t with
      | nil =>
        simp only [firstMaxTs] at h
        cases h
        rcases List.mem_singleton.mp hy with rfl
        exact Nat.le_refl _
      | cons b t2 => exact absurd hft (firstMaxTs_cons_ne_none b t2)
    | some z =>
      simp only [firstMaxTs, hft] at h
      by_cases hlt : a.1.timestamp < z.1.timestamp
      · rw [if_pos hlt] at h
        cases h
        rcases List.mem_cons.mp hy with rfl | hyt
        · exact Nat.le_of_lt hlt
        · exact ih hft y hyt
      · rw [if_neg hlt] at h
        cases h
        rcases List.mem_cons.mp hy with rfl | hyt
        · exact Nat.le_refl _
        · exact Nat.le_trans (ih hft y hyt) (Nat.not_lt.mp hlt)

/-- Helper: membership in the join gives membership in both tables and the
join condition. -/
theorem joinRows_mem {s : Store} {p : Message × Interaction} (h : p ∈ joinRows s) :
    p.1 ∈ s.messages ∧ p.2 ∈ s.interactions ∧ p.1.id = p.2.message_id := by
  unfold joinRows at h
  rw [List.mem_flatMap] at h
  obtain ⟨mi, hmi, hp⟩ := h
  rw [List.mem_map] at hp
  obtain ⟨m, hm, rfl⟩ := hp
  rw [List.mem_filter] at hm
  refine ⟨hm.1, hmi, ?_⟩
  simpa using hm.2

/-- Helper: a matching message and interaction appear in the join. -/
theorem mem_joinRows {s : Store} {m : Message} {mi : Interaction}
    (hm : m ∈ s.messages) (hmi : mi ∈ s.interactions) (hid : m.id = mi.message_id) :
    (m, mi) ∈ joinRows s := by
  unfold joinRows
  rw [List.mem_flatMap]
  exact ⟨mi, hmi, List.mem_map.mpr ⟨m, List.mem_filter.mpr ⟨hm, by simp [hid]⟩, rfl⟩⟩

/-- C2, amended: the latest-addressed-to query returns the Message with the
greatest createdAt among HandOffs whose receiverId matches, breaking createdAt
ties by the earliest-inserted (smallest id) matching row, and returns absent
when no matching HandOff exists (`firstMaxTs` of the matching rows); after
appending two messages addressed to the same receiver at different times it
returns the later one. -/
theorem receive_latest_spec :
    (∀ (s : Store) (model_id : String),
        receive_message s model_id none
          = (firstMaxTs ((joinRows s).filter fun p => p.2.model2_id == model_id)).map
              fun p => p.1.message_content) ∧
    (∀ (s : Store) (snd1 snd2 rcv c1 c2 k1 k2 : String) (t1 t2 : Nat),
        (∀ m ∈ s.messages, m.timestamp ≤ t1) → t1 < t2 →
        receive_message
            (send_message (send_message s snd1 rcv c1 k1 t1).2 snd2 rcv c2 k2 t2).2
            rcv none
          = some c2) := by
  have hmain : ∀ (s : Store) (model_id : String),
      receive_message s model_id none
        = (firstMaxTs ((joinRows s).filter fun p => p.2.model2_id == model_id)).map
            fun p => p.1.message_content := by
    intro s model_id
    have hdef : receive_message s model_id none
        = (List.insertionSort tsDesc
            ((joinRows s).filter fun p => p.2.model2_id == model_id)).head?.map
            fun p => p.1.message_content := rfl
    rw [hdef, insertionSort_tsDesc_head]
  refine ⟨hmain, ?_⟩
  intro s snd1 snd2 rcv c1 c2 k1 k2 t1 t2 hle hlt
  set s1 : Store := (send_message s snd1 rcv c1 k1 t1).2 with hs1
  set s2 : Store := (send_message s1 snd2 rcv c2 k2 t2).2 with hs2
  set m2 : Message := ⟨s1.nextMessageId, snd2, k2, c2, t2⟩ with hm2
  set ni2 : Interaction := ⟨s1.nextInteractionId, snd2, rcv, s1.nextMessageId, t2⟩ with hni2
  have hm2mem : m2 ∈ s2.messages := by
    rw [hs2]
    simp [send_message, hm2]
  have hni2mem : ni2 ∈ s2.interactions := by
    rw [hs2]
    simp [send_message, hni2]
  have hjoin : (m2, ni2) ∈ joinRows s2 := mem_joinRows hm2mem hni2mem rfl
  have hfil : (m2, ni2) ∈ (joinRows s2).filter fun p => p.2.model2_id == rcv := by
    rw [List.mem_filter]
    exact ⟨hjoin, by simp [hni2]⟩
  have hmsg_le : ∀ m ∈ s2.messages, m.timestamp ≤ t2 := by
    intro m hm
    rw [hs2] at hm
    simp only [send_message, List.mem_append, List.mem_singleton] at hm
    rcases hm with hm | rfl
    · rw [hs1] at hm
      simp only [send_message, List.mem_append, List.mem_singleton] at hm
      rcases hm with hm | rfl
      · exact Nat.le_of_lt (Nat.lt_of_le_of_lt (hle m hm) hlt)
      · exact Nat.le_of_lt hlt
    · exact Nat.le_refl _
  have hmsg_eq : ∀ m ∈ s2.messages, m.timestamp = t2 → m = m2 := by
    intro m hm hts
    rw [hs2] at hm
    simp only [send_message, List.mem_append, List.mem_singleton] at hm
    rcases hm with hm | rfl
    · rw [hs1] at hm
      simp only [send_message, List.mem_append, List.mem_singleton] at hm
      rcases hm with hm | rfl
      · exact absurd hts (Nat.ne_of_lt (Nat.lt_of_le_of_lt (hle m hm) hlt))
      · exact absurd hts (Nat.ne_of_lt hlt)
    · rfl
  cases hx : firstMaxTs ((joinRows s2).filter fun p => p.2.model2_id == rcv) with
  | none =>
    obtain ⟨a, t, hcons⟩ := List.exists_cons_of_ne_nil (List.ne_nil_of_mem hfil)
    rw [hcons] at hx
    exact absurd hx (firstMaxTs_cons_ne_none a t)
  | some x =>
    rw [hmain, hx]
    have hxmem := firstMaxTs_mem hx
    have hxjoin := List.mem_of_mem_filter hxmem
    have hxmsg : x.1 ∈ s2.messages := (joinRows_mem hxjoin).1
    have hxmax := firstMaxTs_isMax hx (m2, ni2) hfil
    have hxts : x.1.timestamp = t2 :=
      Nat.le_antisymm (hmsg_le x.1 hxmsg) hxmax
    have hx1 : x.1 = m2 := hmsg_eq x.1 hxmsg hxts
    simp [hx1, hm2]

/-- Witness for the amended C2, at a concrete freshness instance: two appends
to receiver "R" at times 0 and 1 on the empty store; the latest query returns
the later content. -/
theorem receive_latest_spec_witness :
    receive_message
        (send_message (send_message emptyStore "A" "R" "x" "text" 0).2
          "B" "R" "y" "text" 1).2 "R" none
      = some "y" :=
  receive_latest_spec.2 emptyStore "A" "B" "R" "x" "y" "text" "text" 0 1
    (by decide) (by decide)

/-- Helper: `send_message` preserves the structural invariant when the clock
input is at least every stored timestamp. -/
theorem inv_send {s : Store} (h : Inv s) (snd rcv c k : String) (now : Nat)
    (hts : ∀ m ∈ s.messages, m.timestamp ≤ now) :
    Inv (send_message s snd rcv c k now).2 := by
  constructor
  · intro m hm
    simp only [send_message, List.mem_append, List.mem_singleton] at hm
    rcases hm with hm | rfl
    · exact Nat.lt_trans (h.mlt m hm) (Nat.lt_succ_self _)
    · exact Nat.lt_succ_self _
  · intro m hm
    simp only [send_message, List.mem_append, List.mem_singleton] at hm
    rcases hm with hm | rfl
    · exact h.mpos m hm
    · exact h.pos
  · intro mi hmi
    simp only [send_message, List.mem_append, List.mem_singleton] at hmi
    rcases hmi with hmi | rfl
    · exact Nat.lt_trans (h.ilt mi hmi) (Nat.lt_succ_self _)
    · exact Nat.lt_succ_self _
  · simp only [send_message, List.map_append, h.pairing]
    rfl
  · simp only [send_message]
    rw [List.pairwise_append]
    refine ⟨h.mono_id, List.pairwise_singleton _ _, ?_⟩
    intro a ha b hb
    rcases List.mem_singleton.mp hb with rfl
    exact h.mlt a ha
  · simp only [send_message]
    rw [List.pairwise_append]
    refine ⟨h.mono_ts, List.pairwise_singleton _ _, ?_⟩
    intro a ha b hb
    rcases List.mem_singleton.mp hb with rfl
    exact hts a ha
  · exact Nat.le_trans h.pos (Nat.le_succ _)

/-- Helper: every reachable store satisfies the structural invariant. -/
theorem reachable_inv : ∀ {s : Store}, Reachable s → Inv s := by
  intro s h
  induction h with
  | init =>
    refine ⟨?_, ?_, ?_, rfl, ?_, ?_, Nat.le_refl 1⟩ <;> simp [emptyStore]
  | step s snd rcv c k now hr hts ih => exact inv_send ih snd rcv c k now hts

/-- Helper: in a list of messages with strictly increasing ids, filtering by
the id of a member returns exactly that member. -/
theorem filter_id_single :
    ∀ (msgs : List Message), (msgs.Pairwise fun a b => a.id < b.id) →
      ∀ m ∈ msgs, (msgs.filter fun x => x.id == m.id) = [m] := by
  intro msgs
  induction msgs with
  | nil => intro _ m hm; simp at hm
  | cons a t ih =>
    intro hp m hm
    rw [List.pairwise_cons] at hp
    rcases List.mem_cons.mp hm with rfl | hmt
    · rw [List.filter_cons_of_pos (by simp)]
      have hnil : (t.filter fun x => x.id == m.id) = [] := by
        rw [List.filter_eq_nil_iff]
        intro x hx
        have := hp.1 x hx
        simp
        omega
      rw [hnil]
    · have hne : ¬ ((fun x => x.id == m.id) a = true) := by
        have := hp.1 m hmt
        simp
        omega
      rw [@List.filter_cons_of_neg Message (fun x => x.id == m.id) a t hne]
      exact ih hp.2 m hmt

/-- Helper: under the invariant the join is the positional pairing of the two
tables (the k-th interaction references the k-th message). -/
theorem join_zip_aux (msgs : List Message)
    (hp : msgs.Pairwise fun a b => a.id < b.id) :
    ∀ (inters : List Interaction) (post : List Message),
      inters.map Interaction.message_id = post.map Message.id →
      (∀ m ∈ post, m ∈ msgs) →
      (inters.flatMap fun mi =>
          (msgs.filter fun m => m.id == mi.message_id).map fun m => (m, mi))
        = post.zip inters := by
  intro inters
  induction inters with
  | nil =>
    intro post _ _
    simp
  | cons mi itl ih =>
    intro post hmap hpost
    cases post with
    | nil => simp at hmap
    | cons m ptl =>
      simp only [List.map_cons] at hmap
      injection hmap with h1 h2
      rw [List.flatMap_cons]
      have hfil : (msgs.filter fun x => x.id == mi.message_id) = [m] := by
        rw [h1]
        exact filter_id_single msgs hp m (hpost m (List.mem_cons_self m ptl))
      rw [hfil, ih ptl h2 fun x hx => hpost x (List.mem_cons_of_mem m hx)]
      rfl

/-- Helper: the join of an invariant-satisfying store, row for row. -/
theorem joinRows_eq_zip {s : Store} (h : Inv s) :
    joinRows s = s.messages.zip s.interactions :=
  join_zip_aux s.messages h.mono_id s.interactions s.messages h.pairing
    fun _ hm => hm

/-- Helper: a pairwise property of the left list lifts to its zip. -/
theorem pairwise_zip_left {α β : Type} {R : α → α → Prop} :
    ∀ {l1 : List α} (l2 : List β), l1.Pairwise R →
      (l1.zip l2).Pairwise fun p q => R p.1 q.1 := by
  intro l1
  induction l1 with
  | nil => intro l2 _; simp
  | cons a t ih =>
    intro l2 hp
    cases l2 with
    | nil => simp
    | cons b t2 =>
      rw [List.pairwise_cons] at hp
      rw [List.zip_cons_cons, List.pairwise_cons]
      refine ⟨?_, ih t2 hp.2⟩
      rintro ⟨q1, q2⟩ hq
      exact hp.1 q1 (List.of_mem_zip hq).1

/-- C3: for every store state reachable by any sequence of appends under the
monotone clock, `get_all_messages` returns the full history (one row per
message) in an order that is non-decreasing in timestamp, with timestamp ties
broken by strictly increasing message id. -/
theorem history_ordered (s : Store) (h : Reachable s) :
    ((get_all_messages s).Pairwise fun a b =>
        a.timestamp ≤ b.timestamp ∧ (a.timestamp = b.timestamp → a.id < b.id)) ∧
    (get_all_messages s).length = s.messages.length := by
  have hinv := reachable_inv h
  have hzip := joinRows_eq_zip hinv
  have hsorted : List.Sorted tsAsc (joinRows s) := by
    rw [hzip]
    exact pairwise_zip_left s.interactions hinv.mono_ts
  unfold get_all_messages
  rw [List.Sorted.insertionSort_eq hsorted]
  constructor
  · rw [List.pairwise_map, hzip]
    have hcomb := hinv.mono_ts.and hinv.mono_id
    have hzp := pairwise_zip_left s.interactions hcomb
    exact hzp.imp fun hab => ⟨hab.1, fun _ => hab.2⟩
  · rw [hzip, List.length_map, List.length_zip]
    have hlen : s.interactions.length = s.messages.length := by
      have := congrArg List.length hinv.pairing
      simpa using this
    simp [hlen]

/-- Witness for C3 at the concrete two-append store with a timestamp tie. -/
theorem history_ordered_witness :
    ((get_all_messages tieStore).Pairwise fun a b =>
        a.timestamp ≤ b.timestamp ∧ (a.timestamp = b.timestamp → a.id < b.id)) ∧
    (get_all_messages tieStore).length = tieStore.messages.length :=
  history_ordered tieStore
    (Reachable.step _ "B" "R" "two" "text" 5
      (Reachable.step _ "A" "R" "one" "text" 5 Reachable.init (by decide))
      (by decide))

/-- Helper: one pass of the loop body keeps the store reachable. -/
theorem reachable_turn_step {st : List String × Store} (h : Reachable st.2)
    (models : List String) (seed : Option String) (ts : Nat → Nat) (i : Nat)
    (hts : ∀ m ∈ st.2.messages, m.timestamp ≤ ts i) :
    Reachable (turn_step models seed ts st i).2 :=
  Reachable.step st.2 _ _ _ "text" (ts i) h hts

/-- Helper: the fold underlying `execute_turn` keeps the store reachable and
keeps every stored timestamp at or below the advancing clock. -/
theorem reachable_foldl (models : List String) (seed : Option String)
    (ts : Nat → Nat) (hmono : Monotone ts) (s : Store) (acc : List String)
    (hs : Reachable s) (hts : ∀ m ∈ s.messages, m.timestamp ≤ ts 0) :
    ∀ n : Nat,
      Reachable (((List.range n).foldl (turn_step models seed ts) (acc, s)).2) ∧
      ∀ m ∈ (((List.range n).foldl (turn_step models seed ts) (acc, s)).2).messages,
        m.timestamp ≤ ts n := by
  intro n
  induction n with
  | zero => exact ⟨hs, hts⟩
  | succ n ih =>
    rw [List.range_succ, List.foldl_append, List.foldl_cons, List.foldl_nil]
    constructor
    · exact reachable_turn_step ih.1 models seed ts n ih.2
    · intro m hm
      simp only [turn_step, send_message, List.mem_append, List.mem_singleton] at hm
      rcases hm with hm | rfl
      · exact Nat.le_trans (ih.2 m hm) (hmono (Nat.le_succ n))
      · exact hmono (Nat.le_succ n)

/-- C8: in every store state reachable through the public operations, every
HandOff references exactly one existing Message and every Message has at most
one HandOff pointing to it (the referenced ids are pairwise distinct); the
appending operations preserve reachability, `execute_turn` included. -/
theorem handoff_message_bijection (s : Store) (h : Reachable s) :
    (∀ mi ∈ s.interactions, ∃! m, m ∈ s.messages ∧ m.id = mi.message_id) ∧
    (s.interactions.Pairwise fun a b => a.message_id ≠ b.message_id) ∧
    (∀ (models : List String) (seed : Option String) (ts : Nat → Nat),
        Monotone ts → (∀ m ∈ s.messages, m.timestamp ≤ ts 0) →
        Reachable (execute_turn models s seed ts).2) := by
  have hinv := reachable_inv h
  have hnodup : (s.messages.map Message.id).Nodup := by
    have hlt : (s.messages.map Message.id).Pairwise (· < ·) :=
      List.pairwise_map.mpr hinv.mono_id
    exact hlt.imp Nat.ne_of_lt
  refine ⟨?_, ?_, ?_⟩
  · intro mi hmi
    have hmem : mi.message_id ∈ s.messages.map Message.id := by
      rw [← hinv.pairing]
      exact List.mem_map_of_mem Interaction.message_id hmi
    rw [List.mem_map] at hmem
    obtain ⟨m, hm, hid⟩ := hmem
    refine ⟨m, ⟨hm, hid⟩, ?_⟩
    rintro m2 ⟨hm2, hid2⟩
    exact List.inj_on_of_nodup_map hnodup hm2 hm (hid2.trans hid.symm)
  · have hlt : (s.interactions.map Interaction.message_id).Pairwise (· < ·) := by
      rw [hinv.pairing]
      exact List.pairwise_map.mpr hinv.mono_id
    exact (List.pairwise_map.mp hlt).imp Nat.ne_of_lt
  · intro models seed ts hmono hts
    unfold execute_turn
    exact (reachable_foldl models seed ts hmono s [] h hts models.length).1

/-- Witness for C8 at the concrete two-append store, including an
`execute_turn` continuation. -/
theorem handoff_message_bijection_witness :
    (∀ mi ∈ tieStore.interactions,
        ∃! m, m ∈ tieStore.messages ∧ m.id = mi.message_id) ∧
    Reachable (execute_turn ["A", "B"] tieStore none (fun i => i + 9)).2 := by
  have hreach : Reachable tieStore :=
    Reachable.step _ "B" "R" "two" "text" 5
      (Reachable.step _ "A" "R" "one" "text" 5 Reachable.init (by decide))
      (by decide)
  refine ⟨(handoff_message_bijection tieStore hreach).1, ?_⟩
  exact (handoff_message_bijection tieStore hreach).2.2 ["A", "B"] none
    (fun i => i + 9) (fun _ _ hab => Nat.add_le_add_right hab 9) (by decide)

/-- C7: the id returned by `send_message` with receiver rcv is retrievable via
the specific-id query with the same receiver, and the query with any other
receiver returns absent (a mismatch is not an error). -/
theorem append_byid_roundtrip (s : Store) (h : Reachable s) (snd rcv c k : String)
    (now : Nat) (hts : ∀ m ∈ s.messages, m.timestamp ≤ now) (other : String)
    (ho : other ≠ rcv) :
    receive_message (send_message s snd rcv c k now).2 rcv
        (some (send_message s snd rcv c k now).1) = some c ∧
    receive_message (send_message s snd rcv c k now).2 other
        (some (send_message s snd rcv c k now).1) = none := by
  have hinv := reachable_inv h
  have hinv2 : Inv (send_message s snd rcv c k now).2 :=
    inv_send hinv snd rcv c k now hts
  have hmid : (send_message s snd rcv c k now).1 = s.nextMessageId := rfl
  have hlen : s.messages.length = s.interactions.length := by
    have := congrArg List.length hinv.pairing
    simpa using this.symm
  have hsplit : joinRows (send_message s snd rcv c k now).2
      = s.messages.zip s.interactions ++
        [(⟨s.nextMessageId, snd, k, c, now⟩,
          ⟨s.nextInteractionId, snd, rcv, s.nextMessageId, now⟩)] := by
    rw [joinRows_eq_zip hinv2]
    have hm : (send_message s snd rcv c k now).2.messages
        = s.messages ++ [⟨s.nextMessageId, snd, k, c, now⟩] := rfl
    have hi : (send_message s snd rcv c k now).2.interactions
        = s.interactions ++ [⟨s.nextInteractionId, snd, rcv, s.nextMessageId, now⟩] := rfl
    rw [hm, hi, List.zip_append hlen]
    rfl
  have htruthy : truthyId (some (send_message s snd rcv c k now).1) = true := by
    have hpos := hinv.pos
    simp [truthyId, hmid]
    omega
  have hrm : ∀ R : String,
      receive_message (send_message s snd rcv c k now).2 R
          (some (send_message s snd rcv c k now).1)
        = ((joinRows (send_message s snd rcv c k now).2).filter fun p =>
            p.2.message_id == s.nextMessageId && p.2.model2_id == R).head?.map
            fun p => p.1.message_content := by
    intro R
    unfold receive_message
    rw [htruthy]
    simp [hmid]
  have hold : ∀ R : String,
      ((s.messages.zip s.interactions).filter fun p =>
          p.2.message_id == s.nextMessageId && p.2.model2_id == R) = [] := by
    intro R
    rw [List.filter_eq_nil_iff]
    rintro ⟨p1, p2⟩ hp
    have hlt := hinv.ilt p2 (List.of_mem_zip hp).2
    simp only [Bool.and_eq_true, beq_iff_eq, not_and]
    intro h1
    omega
  constructor
  · rw [hrm rcv, hsplit, List.filter_append, hold rcv]
    simp
  · rw [hrm other, hsplit, List.filter_append, hold other]
    have hne : (rcv == other) = false := by
      simp
      exact fun he => ho he.symm
    simp [hne]

/-- Witness for C7: a single append to receiver "B" on the empty store, with
mismatching receiver "Z". -/
theorem append_byid_roundtrip_witness :
    receive_message (send_message emptyStore "A" "B" "hi" "text" 0).2 "B"
        (some (send_message emptyStore "A" "B" "hi" "text" 0).1) = some "hi" ∧
    receive_message (send_message emptyStore "A" "B" "hi" "text" 0).2 "Z"
        (some (send_message emptyStore "A" "B" "hi" "text" 0).1) = none :=
  append_byid_roundtrip emptyStore Reachable.init "A" "B" "hi" "text" 0
    (by decide) "Z" (by decide)

end MCP

